import Mathlib

/-!
Verification of the conservative invoice table parser (`table_parser.py`).

The Python source is shallowly embedded below.  Lines are processed as
`List Char`; monetary amounts are modelled as exact rationals (every value
the code parses is a finite decimal), quantities as integers, and Python's
`''` "unfilled" sentinel as `Option.none`.  A Python exception escaping
`parse_invoice_table` is modelled as `Except.error ()`.

The regular expressions of the source are embedded as explicit scanners.
Every pattern in the source has the shape `class₁⁺ class₂⁺ …` where the
character classes of adjacent pieces are disjoint at each boundary, so the
leftmost backtracking match of the Python `re` engine coincides with the
leftmost forced-greedy match implemented here; the searches below try every
start position from the left, exactly as `re.search` does.
-/

deriving instance DecidableEq for Except

namespace TableParser

/-- Python's ASCII whitespace class `\s` (also what `str.strip` removes). -/
def isPySpace (c : Char) : Bool :=
  c = ' ' || c = '\t' || c = '\n' || c = '\r' || c = '\x0b' || c = '\x0c'

/-- Greedy `\d*`: maximal run of decimal digits at the head. -/
def takeDigits : List Char → List Char × List Char
  | [] => ([], [])
  | c :: cs =>
    if c.isDigit then
      let p := takeDigits cs
      (c :: p.1, p.2)
    else ([], c :: cs)

/-- Greedy `\s*`: maximal run of whitespace at the head. -/
def takeSpaces : List Char → List Char × List Char
  | [] => ([], [])
  | c :: cs =>
    if isPySpace c then
      let p := takeSpaces cs
      (c :: p.1, p.2)
    else ([], c :: cs)

/-- Greedy `[\d,]*`: maximal run of digits and commas at the head. -/
def takeDigitsCommas : List Char → List Char × List Char
  | [] => ([], [])
  | c :: cs =>
    if c.isDigit || c = ',' then
      let p := takeDigitsCommas cs
      (c :: p.1, p.2)
    else ([], c :: cs)

/-- `str.upper` (ASCII). -/
def upperL (cs : List Char) : List Char := cs.map Char.toUpper

/-- `str.strip`: drop leading and trailing whitespace. -/
def pyStripL (cs : List Char) : List Char :=
  ((cs.dropWhile isPySpace).reverse.dropWhile isPySpace).reverse

/-- `str.split('\n')` on the character list (keeps empty pieces). -/
def splitNlAux (cur : List Char) : List Char → List (List Char)
  | [] => [cur.reverse]
  | c :: cs =>
    if c = '\n' then cur.reverse :: splitNlAux [] cs
    else splitNlAux (c :: cur) cs

/-- Value of a nonempty ASCII digit string, as `int(...)` computes it. -/
def digitsToNat (cs : List Char) : ℕ :=
  cs.foldl (fun a c => 10 * a + (c.toNat - '0'.toNat)) 0

def digitsToInt (cs : List Char) : ℤ := (digitsToNat cs : ℤ)

/-- `.replace(',', '')`. -/
def stripCommas (cs : List Char) : List Char := cs.filter (fun c => c ≠ ',')

/-- Python `float(...)` on the strings that can reach it here: digits with at
most one `'.'`.  It fails (raises `ValueError`) exactly when the string
contains no digit at all (`''` or `'.'`). -/
def pyFloatDec (cs : List Char) : Option ℚ :=
  if cs.any Char.isDigit then
    let ip := cs.takeWhile (fun c => c ≠ '.')
    let fp := (cs.dropWhile (fun c => c ≠ '.')).drop 1
    some ((digitsToNat ip : ℚ) + (digitsToNat fp : ℚ) / (10 : ℚ) ^ fp.length)
  else none

/-- `\d+(?:\.\d+)?`, forced-greedy: maximal digits, then an optional
fraction when a dot is immediately followed by a digit. -/
def decNum (cs : List Char) : Option (List Char × List Char) :=
  let p := takeDigits cs
  if p.1.isEmpty then none
  else
    match p.2 with
    | '.' :: r' =>
      let f := takeDigits r'
      if f.1.isEmpty then some (p.1, '.' :: r') else some (p.1 ++ '.' :: f.1, f.2)
    | r => some (p.1, r)

/-- `[\d,]+\.?\d*`, forced-greedy. -/
def grpAmount (cs : List Char) : Option (List Char × List Char) :=
  let p := takeDigitsCommas cs
  if p.1.isEmpty then none
  else
    match p.2 with
    | '.' :: r' =>
      let f := takeDigits r'
      some (p.1 ++ '.' :: f.1, f.2)
    | r => some (p.1, r)

/-- `(\d+)\s+(\d+(?:\.\d+)?)\s+([\d,]+\.?\d*)$` matched against the whole
suffix (the `$` anchor makes the remainder empty). -/
def tierASuffix (cs : List Char) : Option (List Char × List Char × List Char) :=
  let d1 := takeDigits cs
  if d1.1.isEmpty then none
  else
    let w1 := takeSpaces d1.2
    if w1.1.isEmpty then none
    else
      match decNum w1.2 with
      | none => none
      | some (g2, r3) =>
        let w2 := takeSpaces r3
        if w2.1.isEmpty then none
        else
          match grpAmount w2.2 with
          | none => none
          | some (g3, r5) => if r5.isEmpty then some (d1.1, g2, g3) else none

/-- `(\d+)\s+(\d+(?:\.\d+)?)\s*:\s*([\d,]+\.?\d*)$` against the whole suffix. -/
def tierBSuffix (cs : List Char) : Option (List Char × List Char × List Char) :=
  let d1 := takeDigits cs
  if d1.1.isEmpty then none
  else
    let w1 := takeSpaces d1.2
    if w1.1.isEmpty then none
    else
      match decNum w1.2 with
      | none => none
      | some (g2, r3) =>
        match (takeSpaces r3).2 with
        | ':' :: r4 =>
          match grpAmount (takeSpaces r4).2 with
          | none => none
          | some (g3, r5) => if r5.isEmpty then some (d1.1, g2, g3) else none
        | _ => none

/-- `(\d+(?:\.\d+)?)\s+([\d,]+\.?\d*)$` against the whole suffix. -/
def tierCSuffix (cs : List Char) : Option (List Char × List Char) :=
  match decNum cs with
  | none => none
  | some (g1, r1) =>
    let w := takeSpaces r1
    if w.1.isEmpty then none
    else
      match grpAmount w.2 with
      | none => none
      | some (g2, r3) => if r3.isEmpty then some (g1, g2) else none

/-- `(\d+)(?:\s+|\s*\.\s*)LIT` against the whole suffix (no end anchor:
the remainder may be anything once the literal has matched). -/
def recSuffix (lit : List Char) (cs : List Char) : Option (List Char) :=
  let d := takeDigits cs
  if d.1.isEmpty then none
  else
    let w := takeSpaces d.2
    if !w.1.isEmpty && lit.isPrefixOf w.2 then some d.1
    else
      match w.2 with
      | '.' :: r2 =>
        if lit.isPrefixOf (takeSpaces r2).2 then some d.1 else none
      | _ => none

/-- `re.search`: try the anchored matcher at every start, leftmost first. -/
def searchFrom (f : List Char → Option α) : List Char → Option α
  | [] => f []
  | c :: cs =>
    match f (c :: cs) with
    | some r => some r
    | none => searchFrom f cs

/-- `clean_pattern` of the source, under `re.search`. -/
def clean_pattern_search : List Char → Option (List Char × List Char × List Char) :=
  searchFrom tierASuffix

/-- `colon_pattern` of the source, under `re.search`. -/
def colon_pattern_search : List Char → Option (List Char × List Char × List Char) :=
  searchFrom tierBSuffix

/-- `price_pattern` of the source, under `re.search`. -/
def price_pattern_search : List Char → Option (List Char × List Char) :=
  searchFrom tierCSuffix

/-- `qty_pattern` of the source (with the escaped unit-price literal),
under `re.search`. -/
def qty_pattern_search (lit : List Char) : List Char → Option (List Char) :=
  searchFrom (recSuffix lit)

/-- `HSO\s+CHINA` (case-insensitive) matching at the head of the list. -/
def hsoChinaAt : List Char → Bool
  | h :: s :: o :: rest =>
    h.toUpper = 'H' && s.toUpper = 'S' && o.toUpper = 'O' &&
      (let p := takeSpaces rest
       !p.1.isEmpty && "CHINA".toList.isPrefixOf (upperL p.2))
  | _ => false

/-- `re.search(r'^(.+?)(?=HSO\s+CHINA)', line, re.IGNORECASE)`: the lazy
`.+?` yields the shortest nonempty prefix whose end is followed by the
marker. -/
def productSearch : List Char → List Char → Option (List Char)
  | _, [] => none
  | pre, c :: rest =>
    if hsoChinaAt rest then some (pre ++ [c])
    else productSearch (pre ++ [c]) rest

/-- `re.sub(r'\d{8,}', '', s)`: drop every maximal digit run of length ≥ 8
(the argument `run` accumulates the current digit run). -/
def stripRunsAux (run : List Char) : List Char → List Char
  | [] => if 8 ≤ run.length then [] else run
  | c :: cs =>
    if c.isDigit then stripRunsAux (run ++ [c]) cs
    else (if 8 ≤ run.length then [] else run) ++ c :: stripRunsAux [] cs

/-- `re.sub(r'\s+', ' ', s)`: collapse each maximal whitespace run to a
single space (`inRun` records whether the previous character was space). -/
def collapseAux : Bool → List Char → List Char
  | _, [] => []
  | inRun, c :: cs =>
    if isPySpace c then
      if inRun then collapseAux true cs else ' ' :: collapseAux true cs
    else c :: collapseAux false cs

/-- Lines 44–51 of the source: the cleaned product name (`''` when the
marker lookahead never matches). -/
def cleanedProduct (cs : List Char) : String :=
  match productSearch [] cs with
  | none => ""
  | some p =>
    let p1 := pyStripL p
    let p2 := pyStripL (stripRunsAux [] p1)
    let p3 := pyStripL (collapseAux false p2)
    ⟨p3⟩

/-- Python `sub in s` on character lists. -/
def strContains (pat : List Char) : List Char → Bool
  | [] => pat.isEmpty
  | c :: cs => pat.isPrefixOf (c :: cs) || strContains pat cs

/-- Line 31 of the source: candidate filter
`'HSO CHINA' in line.upper() or 'CHINA' in line.upper()`. -/
def candidate (cs : List Char) : Bool :=
  strContains "HSO CHINA".toList (upperL cs) || strContains "CHINA".toList (upperL cs)

/-- One table row; `none` models the `''` "unfilled" sentinel. -/
structure Row where
  Product : String
  Quantity : Option ℤ
  Unit_Price_USD : Option ℚ
  Total_Price_USD : Option ℚ
  Source_Line : ℕ
  Raw_Text : String
deriving DecidableEq, Repr

/-- The tier cascade (lines 57–79): first matching tier wins; a group that
`float(...)` cannot parse raises, modelled as `Except.error`. -/
def applyTiers (cs : List Char) : Except Unit (Option ℤ × Option ℚ × Option ℚ) :=
  match clean_pattern_search cs with
  | some (d1, g2, g3) =>
    match pyFloatDec g2, pyFloatDec (stripCommas g3) with
    | some u, some t => .ok (some (digitsToInt d1), some u, some t)
    | _, _ => .error ()
  | none =>
    match colon_pattern_search cs with
    | some (d1, g2, g3) =>
      match pyFloatDec g2, pyFloatDec (stripCommas g3) with
      | some u, some t => .ok (some (digitsToInt d1), some u, some t)
      | _, _ => .error ()
    | none =>
      match price_pattern_search cs with
      | some (g1, g2) =>
        match pyFloatDec g1, pyFloatDec (stripCommas g2) with
        | some u, some t => .ok (none, some u, some t)
        | _, _ => .error ()
      | none => .ok (none, none, none)

/-- Smallest number of decimal digits needed to write `q` exactly (60 is
far beyond anything the parser can produce). -/
def decDigits (q : ℚ) : ℕ :=
  (((List.range 60).find? (fun k => (q * (10 : ℚ) ^ k).den == 1))).getD 0

/-- `str(float_value)`: CPython prints the shortest decimal that round-trips,
which for the finite decimals this parser stores is the canonical decimal
form (integers get a trailing `.0`). -/
def pyFloatRepr (q : ℚ) : List Char :=
  let k := decDigits q
  let n : ℤ := (q * (10 : ℚ) ^ k).num
  let s := Nat.toDigits 10 n.natAbs
  let s := if s.length ≤ k then List.replicate (k + 1 - s.length) '0' ++ s else s
  (if q < 0 then ['-'] else []) ++
    (if k = 0 then s ++ ['.', '0'] else s.take (s.length - k) ++ '.' :: s.drop (s.length - k))

/-- Quantity recovery pass (lines 81–91).  The guard uses Python truthiness:
a price equal to `0.0` and a quantity equal to `0` are falsy. -/
def recover (cs : List Char) (q : Option ℤ) (u t : Option ℚ) : Option ℤ :=
  match u, t with
  | some uv, some tv =>
    if uv ≠ 0 ∧ tv ≠ 0 ∧ (q = none ∨ q = some 0) then
      match qty_pattern_search (pyFloatRepr uv) cs with
      | some d => some (digitsToInt d)
      | none => q
    else q
  | _, _ => q

/-- Body of the per-line loop of `parse_invoice_table` for one stripped,
nonempty line (`.ok none` = no row emitted for this line). -/
def processLine (n : ℕ) (cs : List Char) : Except Unit (Option Row) :=
  if candidate cs then
    match applyTiers cs with
    | .error e => .error e
    | .ok (q0, u, t) =>
      if 2 < (cleanedProduct cs).length then
        .ok (some ⟨cleanedProduct cs, recover cs q0 u t, u, t, n, ⟨cs⟩⟩)
      else .ok none
  else .ok none

/-- The enumerated line loop of `parse_invoice_table` (line numbers count
blank lines too; an exception aborts the whole scan). -/
def parseLines : ℕ → List (List Char) → Except Unit (List Row)
  | _, [] => .ok []
  | n, l :: rest =>
    let s := pyStripL l
    if s.isEmpty then parseLines (n + 1) rest
    else
      match processLine n s with
      | .error e => .error e
      | .ok none => parseLines (n + 1) rest
      | .ok (some row) =>
        match parseLines (n + 1) rest with
        | .error e => .error e
        | .ok rows => .ok (row :: rows)

/-- `parse_invoice_table` (lines 11–97). -/
def parse_invoice_table (text : String) : Except Unit (List Row) :=
  parseLines 1 (splitNlAux [] (pyStripL text.toList))

/-- `analyze_table`'s report (the numeric value behind the formatted
`completion_rate` string is kept as an exact rational). -/
structure AnalysisReport where
  total_rows : ℕ
  products_filled : ℕ
  quantities_filled : ℕ
  unit_prices_filled : ℕ
  total_prices_filled : ℕ
  total_quantity : ℤ
  total_value : ℚ
  completion_rate : ℚ
deriving DecidableEq, Repr

/-- `analyze_table` (lines 164–204); `none` models the
`{'status': 'No table data found'}` sentinel. -/
def analyze_table (rows : List Row) : Option AnalysisReport :=
  if rows.isEmpty then none
  else
    let n := rows.length
    let qf := rows.countP (fun r => r.Quantity.isSome)
    let uf := rows.countP (fun r => r.Unit_Price_USD.isSome)
    let tf := rows.countP (fun r => r.Total_Price_USD.isSome)
    some
      { total_rows := n
        products_filled := rows.countP (fun r => !(r.Product == ""))
        quantities_filled := qf
        unit_prices_filled := uf
        total_prices_filled := tf
        total_quantity :=
          ((rows.filter (fun r => r.Quantity.isSome)).map
            (fun r => r.Quantity.getD 0)).sum
        total_value :=
          ((rows.filter (fun r => r.Total_Price_USD.isSome)).map
            (fun r => r.Total_Price_USD.getD 0)).sum
        completion_rate := ((qf : ℚ) + uf + tf) / ((n : ℚ) * 3) * 100 }

/-- Rounding to one decimal place (the `:.1f` display of the rate). -/
def round1dp (x : ℚ) : ℚ := (⌊x * 10 + 1 / 2⌋ : ℚ) / 10

/-- CSV header (line 112). -/
def csvHeader : List String :=
  ["Product", "Quantity", "Unit_Price_USD", "Total_Price_USD", "Source_Line", "Raw_Text"]

/-- Two-digit zero-padded rendering of `m < 100`. -/
def pad2 (m : ℕ) : String :=
  ⟨[Nat.digitChar (m / 10), Nat.digitChar (m % 10)]⟩

/-- `f"{x:.2f}"`: fixed two decimal places. -/
def fix2 (q : ℚ) : String :=
  let n : ℤ := ⌊q * 100 + 1 / 2⌋
  (if n < 0 then "-" else "") ++ toString (n.natAbs / 100) ++ "." ++ pad2 (n.natAbs % 100)

/-- One formatted CSV record (lines 118–161). -/
def csvRow (r : Row) : List String :=
  [String.mk (pyStripL r.Product.toList),
   (match r.Quantity with | none => "" | some n => toString n),
   (match r.Unit_Price_USD with | none => "" | some q => fix2 q),
   (match r.Total_Price_USD with | none => "" | some q => fix2 q),
   toString r.Source_Line,
   String.mk (pyStripL r.Raw_Text.toList)]

/-- `save_to_csv` (lines 100–161) as the list of records written: for an
empty table the function returns before writing anything at all. -/
def save_to_csv (rows : List Row) : List (List String) :=
  if rows.isEmpty then [] else csvHeader :: rows.map csvRow

lemma strContains_iff (pat : List Char) :
    ∀ hay, strContains pat hay = true ↔ ∃ l r, hay = l ++ (pat ++ r) := by
  intro hay
  induction hay with
  | nil =>
    simp only [strContains, List.isEmpty_iff]
    constructor
    · rintro rfl; exact ⟨[], [], rfl⟩
    · rintro ⟨l, r, h⟩
      rcases l with _ | ⟨x, l'⟩ <;> rcases pat with _ | ⟨y, p'⟩ <;> simp_all
  | cons c cs ih =>
    simp only [strContains, Bool.or_eq_true, ih]
    constructor
    · rintro (hp | ⟨l, r, rfl⟩)
      · obtain ⟨t, ht⟩ := List.isPrefixOf_iff_prefix.mp hp
        exact ⟨[], t, by simp [ht]⟩
      · exact ⟨c :: l, r, rfl⟩
    · rintro ⟨l, r, h⟩
      rcases l with _ | ⟨x, l'⟩
      · left
        exact List.isPrefixOf_iff_prefix.mpr ⟨r, by simpa using h.symm⟩
      · right
        injection h with h1 h2
        exact ⟨l', r, h2⟩

lemma strContains_of_append {p q hay : List Char}
    (h : strContains (p ++ q) hay = true) : strContains q hay = true := by
  obtain ⟨l, r, rfl⟩ := (strContains_iff _ _).mp h
  exact (strContains_iff _ _).mpr ⟨l ++ p, r, by simp⟩

lemma applyTiers_ok_prices {cs : List Char} {q : Option ℤ} {u t : Option ℚ}
    (h : applyTiers cs = .ok (q, u, t)) :
    (u.isSome ↔ t.isSome) ∧ (q.isSome = true → u.isSome = true ∧ t.isSome = true) := by
  unfold applyTiers at h
  rcases hA : clean_pattern_search cs with _ | ⟨d1, g2, g3⟩
  · simp only [hA] at h
    rcases hB : colon_pattern_search cs with _ | ⟨d1, g2, g3⟩
    · simp only [hB] at h
      rcases hC : price_pattern_search cs with _ | ⟨g1, g2⟩
      · simp only [hC] at h
        simp only [Except.ok.injEq, Prod.mk.injEq] at h
        obtain ⟨rfl, rfl, rfl⟩ := h
        simp
      · simp only [hC] at h
        rcases h2 : pyFloatDec g1 with _ | u'
        · rcases h3 : pyFloatDec (stripCommas g2) with _ | t' <;>
            simp only [h2, h3] at h <;> exact absurd h (by simp)
        · rcases h3 : pyFloatDec (stripCommas g2) with _ | t'
          · simp only [h2, h3] at h
            exact absurd h (by simp)
          · simp only [h2, h3] at h
            simp only [Except.ok.injEq, Prod.mk.injEq] at h
            obtain ⟨rfl, rfl, rfl⟩ := h
            simp
    · simp only [hB] at h
      rcases h2 : pyFloatDec g2 with _ | u'
      · rcases h3 : pyFloatDec (stripCommas g3) with _ | t' <;>
          simp only [h2, h3] at h <;> exact absurd h (by simp)
      · rcases h3 : pyFloatDec (stripCommas g3) with _ | t'
        · simp only [h2, h3] at h
          exact absurd h (by simp)
        · simp only [h2, h3] at h
          simp only [Except.ok.injEq, Prod.mk.injEq] at h
          obtain ⟨rfl, rfl, rfl⟩ := h
          simp
  · simp only [hA] at h
    rcases h2 : pyFloatDec g2 with _ | u'
    · rcases h3 : pyFloatDec (stripCommas g3) with _ | t' <;>
        simp only [h2, h3] at h <;> exact absurd h (by simp)
    · rcases h3 : pyFloatDec (stripCommas g3) with _ | t'
      · simp only [h2, h3] at h
        exact absurd h (by simp)
      · simp only [h2, h3] at h
        simp only [Except.ok.injEq, Prod.mk.injEq] at h
        obtain ⟨rfl, rfl, rfl⟩ := h
        simp

lemma recover_isSome_cases {cs : List Char} {q : Option ℤ} {u t : Option ℚ}
    (h : (recover cs q u t).isSome = true) :
    q.isSome = true ∨ (u.isSome = true ∧ t.isSome = true) := by
  rcases u with _ | uv
  · left; simpa [recover] using h
  rcases t with _ | tv
  · left; simpa [recover] using h
  · right; exact ⟨rfl, rfl⟩

lemma recover_isSome_of {cs : List Char} {q : Option ℤ} (u t : Option ℚ)
    (hq : q.isSome = true) : (recover cs q u t).isSome = true := by
  rcases u with _ | uv
  · simpa [recover] using hq
  rcases t with _ | tv
  · simpa [recover] using hq
  simp only [recover]
  split
  · split <;> simp_all
  · exact hq

lemma recover_of_truthy {cs : List Char} {k : ℤ} (hk : k ≠ 0) (u t : Option ℚ) :
    recover cs (some k) u t = some k := by
  rcases u with _ | uv
  · rfl
  rcases t with _ | tv
  · rfl
  simp only [recover]
  rw [if_neg]
  rintro ⟨-, -, h | h⟩
  · exact Option.noConfusion h
  · exact hk (Option.some.inj h)

lemma processLine_emits {n : ℕ} {cs : List Char} {row : Row}
    (h : processLine n cs = .ok (some row)) :
    row.Product = cleanedProduct cs ∧ 2 < row.Product.length ∧
    candidate cs = true ∧
    ∃ q0 u t, applyTiers cs = .ok (q0, u, t) ∧
      row.Quantity = recover cs q0 u t ∧ row.Unit_Price_USD = u ∧
      row.Total_Price_USD = t ∧ row.Source_Line = n ∧ row.Raw_Text = ⟨cs⟩ := by
  unfold processLine at h
  by_cases hc : candidate cs
  case neg => rw [if_neg hc] at h; exact absurd h (by simp)
  rw [if_pos hc] at h
  rcases hA : applyTiers cs with e | ⟨q0, u, t⟩
  · simp only [hA] at h
    exact absurd h (by simp)
  · simp only [hA] at h
    by_cases hl : 2 < (cleanedProduct cs).length
    · rw [if_pos hl] at h
      injection h with h'
      injection h' with h''
      subst h''
      exact ⟨rfl, hl, hc, q0, u, t, rfl, rfl, rfl, rfl, rfl, rfl⟩
    · rw [if_neg hl] at h
      exact absurd h (by simp)

lemma processLine_not_emits_of_short {n : ℕ} {cs : List Char}
    (hl : (cleanedProduct cs).length ≤ 2) (row : Row) :
    processLine n cs ≠ .ok (some row) := by
  intro h
  obtain ⟨hp, hlen, -⟩ := processLine_emits h
  rw [hp] at hlen
  omega

lemma parseLines_mem :
    ∀ (ls : List (List Char)) (n : ℕ) (rows : List Row) (row : Row),
      parseLines n ls = .ok rows → row ∈ rows →
        ∃ m cs, processLine m cs = .ok (some row) := by
  intro ls
  induction ls with
  | nil =>
    intro n rows row h hm
    simp only [parseLines] at h
    injection h with h'
    subst h'
    exact absurd hm (by simp)
  | cons l rest ih =>
    intro n rows row h hm
    simp only [parseLines] at h
    by_cases hs : (pyStripL l).isEmpty
    · rw [if_pos hs] at h
      exact ih _ _ _ h hm
    rw [if_neg hs] at h
    rcases hp : processLine n (pyStripL l) with e | o <;> rw [hp] at h
    · exact absurd h (by simp)
    rcases o with _ | r
    · exact ih _ _ _ h hm
    rcases hr : parseLines (n + 1) rest with e | rs <;> rw [hr] at h
    · exact absurd h (by simp)
    injection h with h'
    subst h'
    cases hm with
    | head => exact ⟨n, pyStripL l, hp⟩
    | tail _ hm' => exact ih _ _ _ hr hm'

lemma emitted_row_fields {text : String} {rows : List Row} {row : Row}
    (h : parse_invoice_table text = .ok rows) (hm : row ∈ rows) :
    2 < row.Product.length ∧
    (row.Unit_Price_USD.isSome ↔ row.Total_Price_USD.isSome) ∧
    (row.Quantity.isSome = true →
      row.Unit_Price_USD.isSome = true ∧ row.Total_Price_USD.isSome = true) := by
  unfold parse_invoice_table at h
  obtain ⟨m, cs, hp⟩ := parseLines_mem _ _ _ _ h hm
  obtain ⟨hprod, hlen, hc, q0, u, t, hA, hq, hu, ht, -, -⟩ := processLine_emits hp
  refine ⟨hlen, ?_, ?_⟩
  · rw [hu, ht]
    exact (applyTiers_ok_prices hA).1
  · intro hqs
    rw [hq] at hqs
    rcases recover_isSome_cases hqs with h1 | h2
    · rw [hu, ht]
      exact (applyTiers_ok_prices hA).2 h1
    · rw [hu, ht]
      exact h2

lemma sum_filter_isSome_eq_filterMap {α β : Type} [AddCommMonoid β]
    (f : α → Option β) (l : List α) :
    ((l.filter (fun r => (f r).isSome)).map (fun r => (f r).getD 0)).sum
      = (l.filterMap f).sum := by
  induction l with
  | nil => rfl
  | cons a l ih =>
    rcases hf : f a with _ | v <;>
      simp [List.filter_cons, List.filterMap_cons, hf, ih]

lemma sum_filter_isSome_eq_map_getD {α β : Type} [AddCommMonoid β]
    (f : α → Option β) (l : List α) :
    ((l.filter (fun r => (f r).isSome)).map (fun r => (f r).getD 0)).sum
      = (l.map (fun r => (f r).getD 0)).sum := by
  induction l with
  | nil => rfl
  | cons a l ih =>
    rcases hf : f a with _ | v <;>
      simp [List.filter_cons, hf, ih]

lemma round1dp_nonneg {x : ℚ} (hx : 0 ≤ x) : 0 ≤ round1dp x := by
  unfold round1dp
  have h0 : (0 : ℤ) ≤ ⌊x * 10 + 1 / 2⌋ := Int.le_floor.mpr (by push_cast; linarith)
  have h0' : (0 : ℚ) ≤ (⌊x * 10 + 1 / 2⌋ : ℚ) := by exact_mod_cast h0
  linarith

lemma round1dp_le_100 {x : ℚ} (hx : x ≤ 100) : round1dp x ≤ 100 := by
  unfold round1dp
  have h1 : ⌊x * 10 + 1 / 2⌋ ≤ 1000 := Int.floor_le_iff.mpr (by push_cast; linarith)
  have h1' : (⌊x * 10 + 1 / 2⌋ : ℚ) ≤ 1000 := by exact_mod_cast h1
  linarith

lemma digitChar_isDigit {k : ℕ} (hk : k < 10) : (Nat.digitChar k).isDigit = true := by
  interval_cases k <;> decide

lemma fix2_shape (q : ℚ) : ∃ (a : String) (b c : Char),
    fix2 q = a ++ "." ++ ⟨[b, c]⟩ ∧ b.isDigit = true ∧ c.isDigit = true := by
  refine ⟨(if (⌊q * 100 + 1 / 2⌋ : ℤ) < 0 then "-" else "") ++
      toString ((⌊q * 100 + 1 / 2⌋ : ℤ).natAbs / 100),
    Nat.digitChar ((⌊q * 100 + 1 / 2⌋ : ℤ).natAbs % 100 / 10),
    Nat.digitChar ((⌊q * 100 + 1 / 2⌋ : ℤ).natAbs % 100 % 10), ?_, ?_, ?_⟩
  · simp only [fix2, pad2]
  · exact digitChar_isDigit (by omega)
  · exact digitChar_isDigit (Nat.mod_lt _ (by norm_num))

/-- C1: claimed that the extractor never raises and treats unparseable numeric
tokens as tier non-matches.  In fact the Tier A group `[\d,]+\.?\d*` can match
the bare comma `","`; after comma-stripping, `float('')` raises `ValueError`
and the exception aborts the whole scan, losing the previous good line too.
This theorem evaluates the model at that failing input. -/
theorem claim_C1_crash_eval :
    parse_invoice_table "GOOD HSO CHINA 1 2.0 3.0\nCHINA 4 5 ," = .error () ∧
    clean_pattern_search "CHINA 4 5 ,".toList
      = some ("4".toList, "5".toList, ",".toList) ∧
    pyFloatDec (stripCommas ",".toList) = none := by
  refine ⟨?_, ?_, ?_⟩ <;> with_unfolding_all rfl

/-- C2 (amended): when a line matches both Tier A (`clean_pattern`) and
Tier C (`price_pattern`) and a row is emitted, the row carries Tier A's unit
and total prices and a filled quantity; the quantity equals Tier A's quantity
group unless that group parses to 0, in which case Python truthiness lets the
recovery pass overwrite it (still filled). -/
theorem claim_C2_tier_precedence (n : ℕ) (cs : List Char)
    (d1 g2 g3 : List Char) (row : Row)
    (hA : clean_pattern_search cs = some (d1, g2, g3))
    (_hC : (price_pattern_search cs).isSome = true)
    (h : processLine n cs = .ok (some row)) :
    row.Unit_Price_USD = pyFloatDec g2 ∧
    row.Total_Price_USD = pyFloatDec (stripCommas g3) ∧
    row.Quantity.isSome = true ∧
    (digitsToInt d1 ≠ 0 → row.Quantity = some (digitsToInt d1)) := by
  obtain ⟨-, -, -, q0, u, t, hAT, hq, hu, ht, -, -⟩ := processLine_emits h
  unfold applyTiers at hAT
  simp only [hA] at hAT
  rcases h2 : pyFloatDec g2 with _ | u'
  · rcases h3 : pyFloatDec (stripCommas g3) with _ | t' <;>
      simp only [h2, h3] at hAT <;> exact absurd hAT (by simp)
  rcases h3 : pyFloatDec (stripCommas g3) with _ | t'
  · simp only [h2, h3] at hAT
    exact absurd hAT (by simp)
  simp only [h2, h3, Except.ok.injEq, Prod.mk.injEq] at hAT
  obtain ⟨hq0, hu0, ht0⟩ := hAT
  subst hq0
  subst hu0
  subst ht0
  refine ⟨by rw [hu], by rw [ht], ?_, ?_⟩
  · rw [hq]
    exact recover_isSome_of _ _ rfl
  · intro hne
    rw [hq]
    exact recover_of_truthy hne _ _

/-- C2 counterexample: on this line Tier A matches with quantity group "0",
Tier C also matches, yet the emitted row's quantity is 7 (the recovery pass,
enabled because `0` is falsy, re-searches the line and hits the decoy
`7.5.0` inside the product text) — not Tier A's extraction. -/
theorem c2_counterexample_quantity_overridden :
    clean_pattern_search "X7.5.0GB HSO CHINA 0 5.0 6.0".toList
      = some ("0".toList, "5.0".toList, "6.0".toList) ∧
    (price_pattern_search "X7.5.0GB HSO CHINA 0 5.0 6.0".toList).isSome = true ∧
    parse_invoice_table "X7.5.0GB HSO CHINA 0 5.0 6.0" =
      .ok [⟨"X7.5.0GB", some 7, some 5, some 6, 1, "X7.5.0GB HSO CHINA 0 5.0 6.0"⟩] ∧
    digitsToInt "0".toList = 0 ∧ some (7 : ℤ) ≠ some (0 : ℤ) := by
  refine ⟨?_, ?_, ?_, ?_, ?_⟩ <;> first | decide | with_unfolding_all rfl

/-- C2 witness: the amended theorem applied at the clean scenario line, where
Tier A's quantity 4 is nonzero and survives untouched. -/
theorem claim_C2_witness :
    (Row.mk "APPLE IPHONE 12 256GB" (some 4) (some 233) (some 932) 1
        "APPLE IPHONE 12 256GB HSO CHINA 851713004 4 233.00 932.00").Unit_Price_USD
      = pyFloatDec "233.00".toList ∧
    (Row.mk "APPLE IPHONE 12 256GB" (some 4) (some 233) (some 932) 1
        "APPLE IPHONE 12 256GB HSO CHINA 851713004 4 233.00 932.00").Total_Price_USD
      = pyFloatDec (stripCommas "932.00".toList) ∧
    (Row.mk "APPLE IPHONE 12 256GB" (some 4) (some 233) (some 932) 1
        "APPLE IPHONE 12 256GB HSO CHINA 851713004 4 233.00 932.00").Quantity.isSome = true ∧
    (digitsToInt "4".toList ≠ 0 →
      (Row.mk "APPLE IPHONE 12 256GB" (some 4) (some 233) (some 932) 1
          "APPLE IPHONE 12 256GB HSO CHINA 851713004 4 233.00 932.00").Quantity
        = some (digitsToInt "4".toList)) :=
  claim_C2_tier_precedence 1
    "APPLE IPHONE 12 256GB HSO CHINA 851713004 4 233.00 932.00".toList
    "4".toList "233.00".toList "932.00".toList
    (Row.mk "APPLE IPHONE 12 256GB" (some 4) (some 233) (some 932) 1
      "APPLE IPHONE 12 256GB HSO CHINA 851713004 4 233.00 932.00")
    (by with_unfolding_all rfl) (by with_unfolding_all rfl) (by with_unfolding_all rfl)

/-- C3: the documented scenario line is parsed to exactly one row with the
product name cleaned, quantity 4, unit price 233.00 and total price 932.00. -/
theorem claim_C3_scenario :
    parse_invoice_table "APPLE IPHONE 12 256GB HSO CHINA 851713004 4 233.00 932.00" =
      .ok [⟨"APPLE IPHONE 12 256GB", some 4, some 233, some 932, 1,
            "APPLE IPHONE 12 256GB HSO CHINA 851713004 4 233.00 932.00"⟩] := by
  with_unfolding_all rfl

/-- C4: every row the extractor emits has a product name longer than 2
characters, and a line whose cleaned product name has length at most 2 never
yields a row at all. -/
theorem claim_C4_rejection :
    (∀ (text : String) (rows : List Row) (row : Row),
        parse_invoice_table text = .ok rows → row ∈ rows →
        2 < row.Product.length) ∧
    (∀ (n : ℕ) (cs : List Char) (row : Row),
        (cleanedProduct cs).length ≤ 2 → processLine n cs ≠ .ok (some row)) := by
  constructor
  · intro text rows row h hm
    exact (emitted_row_fields h hm).1
  · intro n cs row hl
    exact processLine_not_emits_of_short hl row

/-- C4 witness: the rejection bound evaluated on a concrete emitted row. -/
theorem claim_C4_witness :
    2 < (Row.mk "ABCD" (some 1) (some 2) (some 3) 1
          "ABCD HSO CHINA 1 2.0 3.0").Product.length :=
  claim_C4_rejection.1 "ABCD HSO CHINA 1 2.0 3.0"
    [Row.mk "ABCD" (some 1) (some 2) (some 3) 1 "ABCD HSO CHINA 1 2.0 3.0"]
    (Row.mk "ABCD" (some 1) (some 2) (some 3) 1 "ABCD HSO CHINA 1 2.0 3.0")
    (by with_unfolding_all rfl) (List.Mem.head _)

/-- C5 (amended): the candidate filter accepts a line exactly when its
uppercase form contains "CHINA" (the `'HSO CHINA' in …` disjunct is
redundant), and a line without "CHINA" yields no row; the strict substring
"HSO CHINA" is not required, since the filter's "CHINA" arm plus the
`HSO\s+CHINA` product regex admit variants with repeated whitespace. -/
theorem claim_C5_candidate_marker (n : ℕ) (cs : List Char) :
    candidate cs = strContains "CHINA".toList (upperL cs) ∧
    (strContains "CHINA".toList (upperL cs) = false → processLine n cs = .ok none) := by
  have hses : candidate cs = strContains "CHINA".toList (upperL cs) := by
    unfold candidate
    cases hB : strContains "CHINA".toList (upperL cs)
    · cases hA : strContains "HSO CHINA".toList (upperL cs)
      · rfl
      · have hq : strContains "CHINA".toList (upperL cs) = true :=
          strContains_of_append (p := "HSO ".toList) (q := "CHINA".toList) hA
        rw [hq] at hB
        exact absurd hB (by simp)
    · simp
  refine ⟨hses, ?_⟩
  intro hB
  have hc : candidate cs = false := by rw [hses, hB]
  simp [processLine, hc]

/-- C5 counterexample: this line does not contain the substring "HSO CHINA"
(there are two spaces between the tokens), yet it is a candidate via the
"CHINA" arm and the `HSO\s+CHINA` regex matches, so a row is emitted. -/
theorem c5_counterexample_loose_marker :
    strContains "HSO CHINA".toList (upperL "ABC HSO  CHINA".toList) = false ∧
    parse_invoice_table "ABC HSO  CHINA" =
      .ok [⟨"ABC", none, none, none, 1, "ABC HSO  CHINA"⟩] := by
  refine ⟨?_, ?_⟩ <;> with_unfolding_all rfl

/-- C5 witness: the amended theorem evaluated on a marker-free line, which is
skipped. -/
theorem claim_C5_witness :
    candidate "XYZ 1 2.0 3.0".toList
      = strContains "CHINA".toList (upperL "XYZ 1 2.0 3.0".toList) ∧
    processLine 1 "XYZ 1 2.0 3.0".toList = .ok none :=
  ⟨(claim_C5_candidate_marker 1 "XYZ 1 2.0 3.0".toList).1,
   (claim_C5_candidate_marker 1 "XYZ 1 2.0 3.0".toList).2 (by with_unfolding_all rfl)⟩

/-- C6 counterexample (negation of the claimed full independence): a row with
quantity filled but unit price unfilled can never be emitted — every path that
writes the quantity requires the prices, so field presence is not independent
in the "vice versa" direction. -/
theorem c6_counterexample_dependence :
    ¬ ∃ (text : String) (rows : List Row) (row : Row),
        parse_invoice_table text = .ok rows ∧ row ∈ rows ∧
        row.Quantity.isSome = true ∧ row.Unit_Price_USD.isSome = false := by
  rintro ⟨text, rows, row, h, hm, hq, hu⟩
  have h2 := (emitted_row_fields h hm).2.2 hq
  rw [h2.1] at hu
  exact absurd hu (by simp)

/-- C6 (amended): quantity may be unfilled while both prices are filled
(first conjunct, a concrete Tier C row), but not vice versa: in every emitted
row a filled quantity forces both prices to be filled. -/
theorem claim_C6_field_optionality :
    (parse_invoice_table "ABC HSO CHINA x 270.00 936.00" =
        .ok [⟨"ABC", none, some 270, some 936, 1, "ABC HSO CHINA x 270.00 936.00"⟩]) ∧
    (∀ (text : String) (rows : List Row) (row : Row),
        parse_invoice_table text = .ok rows → row ∈ rows →
        row.Quantity.isSome = true →
        row.Unit_Price_USD.isSome = true ∧ row.Total_Price_USD.isSome = true) := by
  constructor
  · with_unfolding_all rfl
  · intro text rows row h hm hq
    exact (emitted_row_fields h hm).2.2 hq

/-- C6 witness: the quantity-implies-prices direction evaluated on a concrete
emitted row. -/
theorem claim_C6_witness :
    (Row.mk "ABCD" (some 1) (some 2) (some 3) 1
        "ABCD HSO CHINA 1 2.0 3.0").Unit_Price_USD.isSome = true ∧
    (Row.mk "ABCD" (some 1) (some 2) (some 3) 1
        "ABCD HSO CHINA 1 2.0 3.0").Total_Price_USD.isSome = true :=
  claim_C6_field_optionality.2 "ABCD HSO CHINA 1 2.0 3.0"
    [Row.mk "ABCD" (some 1) (some 2) (some 3) 1 "ABCD HSO CHINA 1 2.0 3.0"]
    (Row.mk "ABCD" (some 1) (some 2) (some 3) 1 "ABCD HSO CHINA 1 2.0 3.0")
    (by with_unfolding_all rfl) (List.Mem.head _) rfl

/-- C7: the analyzer's aggregates sum exactly the filled fields — the total
value (resp. quantity) equals the sum over the rows whose total price (resp.
quantity) is filled, equivalently the sum over all rows with unfilled fields
contributing zero. -/
theorem claim_C7_sum_correctness (rows : List Row) (r : AnalysisReport)
    (h : analyze_table rows = some r) :
    r.total_value = (rows.filterMap (fun x => x.Total_Price_USD)).sum ∧
    r.total_value = (rows.map (fun x => x.Total_Price_USD.getD 0)).sum ∧
    r.total_quantity = (rows.filterMap (fun x => x.Quantity)).sum ∧
    r.total_quantity = (rows.map (fun x => x.Quantity.getD 0)).sum := by
  unfold analyze_table at h
  by_cases he : rows.isEmpty
  · rw [if_pos he] at h
    exact absurd h (by simp)
  rw [if_neg he] at h
  injection h with h'
  subst h'
  exact ⟨sum_filter_isSome_eq_filterMap _ _, sum_filter_isSome_eq_map_getD _ _,
    sum_filter_isSome_eq_filterMap _ _, sum_filter_isSome_eq_map_getD _ _⟩

/-- C7 witness: the sum property evaluated on a concrete two-row table with
one unfilled total price and one unfilled quantity. -/
theorem claim_C7_witness :
    (AnalysisReport.mk 2 2 1 2 1 4 932 (200 / 3)).total_value
      = ([Row.mk "AAA" (some 4) (some 233) (some 932) 1 "x",
          Row.mk "BBB" none (some 270) none 2 "y"].filterMap
          (fun x => x.Total_Price_USD)).sum :=
  (claim_C7_sum_correctness
    [Row.mk "AAA" (some 4) (some 233) (some 932) 1 "x",
     Row.mk "BBB" none (some 270) none 2 "y"]
    (AnalysisReport.mk 2 2 1 2 1 4 932 (200 / 3))
    (by with_unfolding_all rfl)).1

/-- C8: for a nonempty table the completion rate is the number of filled
slots among the three optional numeric fields over `3 × row count`, as a
percentage; it lies in [0, 100], and so does its one-decimal rendering. -/
theorem claim_C8_completion_rate (rows : List Row) (r : AnalysisReport)
    (h : analyze_table rows = some r) :
    r.completion_rate =
      ((rows.countP (fun x => x.Quantity.isSome)
        + rows.countP (fun x => x.Unit_Price_USD.isSome)
        + rows.countP (fun x => x.Total_Price_USD.isSome) : ℕ) : ℚ)
        / (3 * (rows.length : ℚ)) * 100 ∧
    0 ≤ r.completion_rate ∧ r.completion_rate ≤ 100 ∧
    0 ≤ round1dp r.completion_rate ∧ round1dp r.completion_rate ≤ 100 := by
  unfold analyze_table at h
  by_cases he : rows.isEmpty
  · rw [if_pos he] at h
    exact absurd h (by simp)
  rw [if_neg he] at h
  injection h with h'
  subst h'
  have hn : 1 ≤ rows.length := by
    rcases rows with _ | ⟨a, l⟩
    · exact absurd rfl he
    · simp
  have hq1 : rows.countP (fun x => x.Quantity.isSome) ≤ rows.length :=
    List.countP_le_length _
  have hq2 : rows.countP (fun x => x.Unit_Price_USD.isSome) ≤ rows.length :=
    List.countP_le_length _
  have hq3 : rows.countP (fun x => x.Total_Price_USD.isSome) ≤ rows.length :=
    List.countP_le_length _
  have hn' : (1 : ℚ) ≤ (rows.length : ℚ) := by exact_mod_cast hn
  have hpos : (0 : ℚ) < (rows.length : ℚ) * 3 := by linarith
  have hsum : ((rows.countP (fun x => x.Quantity.isSome) : ℚ)
      + (rows.countP (fun x => x.Unit_Price_USD.isSome) : ℚ)
      + (rows.countP (fun x => x.Total_Price_USD.isSome) : ℚ))
        ≤ (rows.length : ℚ) * 3 := by
    have hs : rows.countP (fun x => x.Quantity.isSome)
        + rows.countP (fun x => x.Unit_Price_USD.isSome)
        + rows.countP (fun x => x.Total_Price_USD.isSome) ≤ rows.length * 3 := by
      omega
    exact_mod_cast hs
  have h0 : (0 : ℚ) ≤ ((rows.countP (fun x => x.Quantity.isSome) : ℚ)
      + (rows.countP (fun x => x.Unit_Price_USD.isSome) : ℚ)
      + (rows.countP (fun x => x.Total_Price_USD.isSome) : ℚ))
        / ((rows.length : ℚ) * 3) * 100 := by positivity
  have h1 : ((rows.countP (fun x => x.Quantity.isSome) : ℚ)
      + (rows.countP (fun x => x.Unit_Price_USD.isSome) : ℚ)
      + (rows.countP (fun x => x.Total_Price_USD.isSome) : ℚ))
        / ((rows.length : ℚ) * 3) ≤ 1 := (div_le_one hpos).mpr hsum
  have h100 : ((rows.countP (fun x => x.Quantity.isSome) : ℚ)
      + (rows.countP (fun x => x.Unit_Price_USD.isSome) : ℚ)
      + (rows.countP (fun x => x.Total_Price_USD.isSome) : ℚ))
        / ((rows.length : ℚ) * 3) * 100 ≤ 100 := by
    calc ((rows.countP (fun x => x.Quantity.isSome) : ℚ)
        + (rows.countP (fun x => x.Unit_Price_USD.isSome) : ℚ)
        + (rows.countP (fun x => x.Total_Price_USD.isSome) : ℚ))
          / ((rows.length : ℚ) * 3) * 100
        ≤ 1 * 100 := mul_le_mul_of_nonneg_right h1 (by norm_num)
      _ = 100 := one_mul _
  exact ⟨by push_cast; ring, h0, h100, round1dp_nonneg h0, round1dp_le_100 h100⟩

/-- C8 witness: the completion-rate bounds evaluated on a concrete two-row
table with four of the six optional slots filled (rate 200/3, about 66.7%). -/
theorem claim_C8_witness :
    0 ≤ (AnalysisReport.mk 2 2 1 2 1 4 932 (200 / 3)).completion_rate ∧
    (AnalysisReport.mk 2 2 1 2 1 4 932 (200 / 3)).completion_rate ≤ 100 :=
  ⟨(claim_C8_completion_rate
      [Row.mk "AAA" (some 4) (some 233) (some 932) 1 "x",
       Row.mk "BBB" none (some 270) none 2 "y"]
      (AnalysisReport.mk 2 2 1 2 1 4 932 (200 / 3)) (by with_unfolding_all rfl)).2.1,
   (claim_C8_completion_rate
      [Row.mk "AAA" (some 4) (some 233) (some 932) 1 "x",
       Row.mk "BBB" none (some 270) none 2 "y"]
      (AnalysisReport.mk 2 2 1 2 1 4 932 (200 / 3)) (by with_unfolding_all rfl)).2.2.1⟩

/-- C9 counterexample: for the empty row list `save_to_csv` returns before
writing anything, so no header row is present — the claimed "header row is
always present" fails on the empty list. -/
theorem c9_counterexample_empty_no_header :
    save_to_csv [] = ([] : List (List String)) ∧
    csvHeader ∉ save_to_csv ([] : List Row) := by
  constructor
  · rfl
  · intro hmem
    simp [save_to_csv] at hmem

/-- C9 (amended): for every nonempty row list the CSV output is the header
followed by one record per row; unfilled numeric fields serialize as empty
cells, filled quantities as plain integers, and filled prices with exactly
two decimal places. -/
theorem claim_C9_csv (rows : List Row) (h : rows ≠ []) :
    save_to_csv rows = csvHeader :: rows.map csvRow ∧
    (save_to_csv rows).head? = some csvHeader ∧
    ∀ r ∈ rows,
      (r.Quantity = none → (csvRow r).get? 1 = some "") ∧
      (∀ n, r.Quantity = some n → (csvRow r).get? 1 = some (toString n)) ∧
      (r.Unit_Price_USD = none → (csvRow r).get? 2 = some "") ∧
      (∀ q, r.Unit_Price_USD = some q → (csvRow r).get? 2 = some (fix2 q) ∧
        ∃ (a : String) (b c : Char), fix2 q = a ++ "." ++ ⟨[b, c]⟩ ∧
          b.isDigit = true ∧ c.isDigit = true) ∧
      (r.Total_Price_USD = none → (csvRow r).get? 3 = some "") ∧
      (∀ q, r.Total_Price_USD = some q → (csvRow r).get? 3 = some (fix2 q) ∧
        ∃ (a : String) (b c : Char), fix2 q = a ++ "." ++ ⟨[b, c]⟩ ∧
          b.isDigit = true ∧ c.isDigit = true) := by
  have hne : rows.isEmpty = false := by
    cases rows with
    | nil => exact absurd rfl h
    | cons a l => rfl
  refine ⟨by simp [save_to_csv, hne], by simp [save_to_csv, hne], ?_⟩
  intro r hr
  refine ⟨?_, ?_, ?_, ?_, ?_, ?_⟩
  · intro hq
    simp [csvRow, hq]
  · intro n hq
    simp [csvRow, hq]
  · intro hu
    simp [csvRow, hu]
  · intro q hu
    exact ⟨by simp [csvRow, hu], fix2_shape q⟩
  · intro ht
    simp [csvRow, ht]
  · intro q ht
    exact ⟨by simp [csvRow, ht], fix2_shape q⟩

/-- C9 witness: the CSV properties evaluated on a concrete one-row table
whose quantity is unfilled. -/
theorem claim_C9_witness :
    save_to_csv [Row.mk "ABC" none (some 270) (some 936) 1 "raw"]
      = csvHeader :: [Row.mk "ABC" none (some 270) (some 936) 1 "raw"].map csvRow ∧
    (csvRow (Row.mk "ABC" none (some 270) (some 936) 1 "raw")).get? 1 = some "" :=
  ⟨(claim_C9_csv [Row.mk "ABC" none (some 270) (some 936) 1 "raw"] (by simp)).1,
   (((claim_C9_csv [Row.mk "ABC" none (some 270) (some 936) 1 "raw"] (by simp)).2.2
      (Row.mk "ABC" none (some 270) (some 936) 1 "raw") (List.Mem.head _)).1 rfl)⟩

/-- C10: in every emitted row, the unit price is filled exactly when the
total price is filled — every tier fills both prices together and the
recovery pass only writes the quantity. -/
theorem claim_C10_prices_filled_together (text : String) (rows : List Row)
    (row : Row) (h : parse_invoice_table text = .ok rows) (hm : row ∈ rows) :
    row.Unit_Price_USD.isSome ↔ row.Total_Price_USD.isSome :=
  (emitted_row_fields h hm).2.1

/-- C10 witness: the price-pairing invariant evaluated on a concrete emitted
row. -/
theorem claim_C10_witness :
    ((Row.mk "ABCD" (some 1) (some 2) (some 3) 1
        "ABCD HSO CHINA 1 2.0 3.0").Unit_Price_USD.isSome ↔
     (Row.mk "ABCD" (some 1) (some 2) (some 3) 1
        "ABCD HSO CHINA 1 2.0 3.0").Total_Price_USD.isSome) :=
  claim_C10_prices_filled_together "ABCD HSO CHINA 1 2.0 3.0"
    [Row.mk "ABCD" (some 1) (some 2) (some 3) 1 "ABCD HSO CHINA 1 2.0 3.0"]
    (Row.mk "ABCD" (some 1) (some 2) (some 3) 1 "ABCD HSO CHINA 1 2.0 3.0")
    (by with_unfolding_all rfl) (List.Mem.head _)

end TableParser
